import Mathlib

/-!
Shallow embedding of the appointment-booking engine (src/main.py).

Modelling conventions:
* Strings are handled through their character lists (`String.data`); `\d` in the
  source's regexes is modelled as the ASCII digits `0`-`9` and Python's
  `str.strip()` as removal of ASCII whitespace from both ends.
* Clock times and durations are modelled as integer minutes after midnight
  (the source holds `datetime`/`timedelta` values, whose arithmetic and
  comparisons are exact; every duration occurring in the program — the five
  catalog values and the 1.5 h fallback — is a whole number of minutes, and a
  service duration of `h` hours enters the computation as `60*h` minutes).
  The SQLite ledger is a list of rows plus an AUTOINCREMENT
  counter; `ORDER BY` is a stable sort and `DISTINCT`+`ORDER BY` is
  deduplication followed by sorting.
* `datetime.strptime(text, "%d.%m.%Y")` is embedded following CPython's
  `_strptime` regexes: `%d` = `3[0-1]|[1-2]\d|0[1-9]|[1-9]| [1-9]`,
  `%m` = `1[0-2]|0[1-9]|[1-9]`, `%Y` = `\d\d\d\d`, the separators matched
  literally with the whole string consumed, followed by the constructor's
  calendar validation (`datetime.MINYEAR = 1`, days per month with leap years).
-/

namespace Booking

/-! ### Characters and Python string primitives -/

def isDigitCh (c : Char) : Bool := 48 ≤ c.toNat && c.toNat ≤ 57

def isSpaceCh (c : Char) : Bool :=
  c.toNat = 32 || c.toNat = 9 || c.toNat = 10 || c.toNat = 13 || c.toNat = 11 || c.toNat = 12

def digitVal (c : Char) : ℕ := c.toNat - 48

def digitCh (n : ℕ) : Char := Char.ofNat (48 + n)

/-- Python `str.strip()` on the character list. -/
def pyStrip (l : List Char) : List Char :=
  ((l.dropWhile isSpaceCh).reverse.dropWhile isSpaceCh).reverse

/-- Split a character list at every `'.'` (the literal separators of the
`"%d.%m.%Y"` format; the component regexes themselves never match a dot). -/
def splitDots : List Char → List (List Char)
  | [] => [[]]
  | c :: rest =>
    if c = '.' then [] :: splitDots rest
    else
      match splitDots rest with
      | [] => [[c]]
      | t :: ts => (c :: t) :: ts

/-! ### Calendar dates (`datetime.date`) -/

structure Date where
  year : ℕ
  month : ℕ
  day : ℕ
deriving DecidableEq, Repr

/-- Comparison of `datetime.date`: lexicographic on (year, month, day). -/
def dateLt (a b : Date) : Bool :=
  decide (a.year < b.year) ||
    (decide (a.year = b.year) &&
      (decide (a.month < b.month) || (decide (a.month = b.month) && decide (a.day < b.day))))

def isLeap (y : ℕ) : Bool := y % 4 == 0 && (y % 100 != 0 || y % 400 == 0)

def daysInMonth (y m : ℕ) : ℕ :=
  if m = 2 then (if isLeap y then 29 else 28)
  else if m = 4 ∨ m = 6 ∨ m = 9 ∨ m = 11 then 30
  else 31

/-- CPython `%d` regex `3[0-1]|[1-2]\d|0[1-9]|[1-9]| [1-9]` applied to one
dot-separated token (two-digit alternatives cover exactly the values 1–31). -/
def matchDay : List Char → Option ℕ
  | [c] => if 49 ≤ c.toNat ∧ c.toNat ≤ 57 then some (digitVal c) else none
  | [a, b] =>
    if a.toNat = 32 ∧ 49 ≤ b.toNat ∧ b.toNat ≤ 57 then some (digitVal b)
    else if isDigitCh a ∧ isDigitCh b ∧ 1 ≤ 10 * digitVal a + digitVal b ∧
        10 * digitVal a + digitVal b ≤ 31 then
      some (10 * digitVal a + digitVal b)
    else none
  | _ => none

/-- CPython `%m` regex `1[0-2]|0[1-9]|[1-9]` on one token. -/
def matchMonth : List Char → Option ℕ
  | [c] => if 49 ≤ c.toNat ∧ c.toNat ≤ 57 then some (digitVal c) else none
  | [a, b] =>
    if isDigitCh a ∧ isDigitCh b ∧ 1 ≤ 10 * digitVal a + digitVal b ∧
        10 * digitVal a + digitVal b ≤ 12 then
      some (10 * digitVal a + digitVal b)
    else none
  | _ => none

/-- CPython `%Y` regex `\d\d\d\d` on one token. -/
def matchYear : List Char → Option ℕ
  | [a, b, c, d] =>
    if isDigitCh a ∧ isDigitCh b ∧ isDigitCh c ∧ isDigitCh d then
      some (1000 * digitVal a + 100 * digitVal b + 10 * digitVal c + digitVal d)
    else none
  | _ => none

/-- Embeds `datetime.strptime(text.strip(), "%d.%m.%Y").date()`: the three regex
tokens around the literal dots, then the `datetime` constructor's calendar
validation (year ≥ 1, day ≤ days in month; the regexes already force
month ∈ [1,12], day ∈ [1,31], year ≤ 9999).  `none` models `ValueError`. -/
def strptimeDate (text : String) : Option Date :=
  match splitDots (pyStrip text.data) with
  | [dt, mt, yt] =>
    match matchDay dt, matchMonth mt, matchYear yt with
    | some d, some m, some y =>
      if 1 ≤ y ∧ d ≤ daysInMonth y m then some ⟨y, m, d⟩ else none
    | _, _, _ => none
  | _ => none

/-- Embeds `Bot._parse_date` (src/main.py:191-198): strptime, then reject dates
strictly before `today`; every exception is caught, so the function is total
and returns `none` on any failure. -/
def _parse_date (today : Date) (text : String) : Option Date :=
  match strptimeDate text with
  | none => none
  | some d => if dateLt d today then none else some d

/-! ### Phone validation -/

/-- Embeds `re.sub(r"[^\d+]", "", text)`: keep only digits and `'+'`. -/
def stripPhone (l : List Char) : List Char := l.filter fun c => isDigitCh c || c = '+'

def digits10 (l : List Char) : Bool := l.length == 10 && l.all isDigitCh

/-- Embeds `re.fullmatch(r"(\+38|38)\d{10}", ·)`. -/
def phoneRegexOk : List Char → Bool
  | a :: b :: c :: rest =>
    if a = '+' ∧ b = '3' ∧ c = '8' then digits10 rest
    else if a = '3' ∧ b = '8' then digits10 (c :: rest)
    else false
  | _ => false

/-- Embeds `Bot._is_valid_phone` (src/main.py:187-189). -/
def _is_valid_phone (text : String) : Bool := phoneRegexOk (stripPhone text.data)

/-- The normalized phone stored by `Bot.get_date` (src/main.py:391):
`re.sub(r"[^\d+]", "", message.text.strip())`. -/
def normalizePhone (text : String) : String := String.mk (stripPhone (pyStrip text.data))

/-- The phone-validation/storage part of `Bot.get_date` (src/main.py:385-392):
on a valid phone the normalized string is stored into the session. -/
def get_date_phone (text : String) : Option String :=
  let raw := pyStrip text.data
  if phoneRegexOk (stripPhone raw) then some (String.mk (stripPhone raw)) else none

/-! ### Time token syntax -/

/-- Embeds `re.fullmatch(r"\d{2}:\d{2}", ·)` from `Bot.confirm_record`. -/
def isHHMM (l : List Char) : Bool :=
  match l with
  | [a, b, c, d, e] => isDigitCh a && isDigitCh b && c == ':' && isDigitCh d && isDigitCh e
  | _ => false

/-! ### Service catalog and durations -/

/-- Embeds `Bot.services` (src/main.py:166-172); the durations (1.5, 2.0, 2.0, 3.0,
0.5 hours) are given in minutes (90, 120, 120, 180, 30). -/
def services : List (String × ℤ) :=
  [("Маникюр + гель-лак", 90),
   ("Маникюр + укрепление", 120),
   ("Наращивание (короткие)", 120),
   ("Наращивание (длинные)", 180),
   ("Френч (как доп. к услуге)", 30)]

/-- Embeds `Bot.get_duration` (src/main.py:200-201): `self.services.get(service, 1.5)`
(1.5 hours = 90 minutes). -/
def get_duration (service : String) : ℤ := (services.lookup service).getD 90

/-! ### Slot allocation -/

/-- Work-window open, minutes (12:00). -/
def workOpen : ℤ := 720

/-- Work-window close, minutes (19:00). -/
def workClose : ℤ := 1140

/-- Busy intervals `[start, start + duration(service))` built by
`get_available_slots` from the rows `(time, service)` of the date (minutes). -/
def busyOf (rows : List (ℤ × String)) : List (ℤ × ℤ) :=
  rows.map fun p => (p.1, p.1 + get_duration p.2)

/-- Number of iterations of the candidate loop: `cur = 720 + 30*k` is visited
exactly for the `k` with `cur + need ≤ 1140` (the `while` condition is antitone
in `cur`, so the visited set is the initial segment below this count). -/
def slotCount (need : ℤ) : ℕ :=
  if need ≤ 420 then (420 - need).toNat / 30 + 1 else 0

/-- The loop body's acceptance test: `ok` stays true iff for every busy
interval `(s, e)`, `cur + need ≤ s` or `cur ≥ e`. -/
def slotFree (busy : List (ℤ × ℤ)) (need cur : ℤ) : Bool :=
  busy.all fun se => decide (cur + need ≤ se.1) || decide (se.2 ≤ cur)

/-- Embeds `Bot.get_available_slots` (src/main.py:203-223) on the fetched rows of the
requested date, with the requested duration `need` in minutes
(`timedelta(hours=duration_hours)`): candidates from 12:00 in 30-minute steps
while `cur + need ≤ work_end`; a candidate is kept iff it passes `slotFree`
against the busy intervals. -/
def get_available_slots (rows : List (ℤ × String)) (need : ℤ) : List ℤ :=
  (List.range (slotCount need)).filterMap fun (k : ℕ) =>
    if slotFree (busyOf rows) need (720 + 30 * (k : ℤ)) then some (720 + 30 * (k : ℤ))
    else none

def pad2 (n : ℕ) : List Char := [digitCh (n / 10), digitCh (n % 10)]

def pad4 (n : ℕ) : List Char :=
  [digitCh (n / 1000), digitCh (n / 100 % 10), digitCh (n / 10 % 10), digitCh (n % 10)]

/-- Embeds `cur.strftime("%H:%M")` for the minute values produced by the candidate
loop. -/
def fmtHHMM (t : ℤ) : String :=
  let n := t.toNat
  String.mk (pad2 (n / 60 % 24) ++ ':' :: pad2 (n % 60))

/-- The slot strings presented as keyboard choices by `Bot.get_time`. -/
def slotStrings (rows : List (ℤ × String)) (need : ℤ) : List String :=
  (get_available_slots rows need).map fmtHHMM

/-- Embeds `d.strftime("%d.%m.%Y")` (4-digit years; the claims only involve such). -/
def fmtDate (d : Date) : String :=
  String.mk (pad2 d.day ++ '.' :: (pad2 d.month ++ '.' :: pad4 d.year))

/-! ### Text ordering (SQLite `ORDER BY` on TEXT is a byte-wise comparison,
which on the stored ASCII data coincides with code-point lexicographic order) -/

def memLe : List Char → List Char → Bool
  | [], _ => true
  | _ :: _, [] => false
  | c :: cs, d :: ds =>
    if c.toNat < d.toNat then true
    else if d.toNat < c.toNat then false
    else memLe cs ds

def strLe (a b : String) : Prop := memLe a.data b.data = true

instance : DecidableRel strLe :=
  fun a b => inferInstanceAs (Decidable (memLe a.data b.data = true))

/-! ### The Ledger (`DataBase`, src/main.py:108-157) -/

structure Record where
  id : ℕ
  telegram_id : ℤ
  name : String
  phone : String
  service : String
  date : String
  time : String
deriving DecidableEq, Repr

/-- The `Records` table plus the AUTOINCREMENT counter. -/
structure DB where
  nextId : ℕ
  records : List Record
deriving DecidableEq, Repr

def emptyDB : DB := ⟨1, []⟩

/-- Embeds `DataBase.add_record` (src/main.py:128-133): INSERT with an automatically
assigned fresh id. -/
def add_record (db : DB) (telegram_id : ℤ) (name phone service date time : String) : DB :=
  ⟨db.nextId + 1, db.records ++ [⟨db.nextId, telegram_id, name, phone, service, date, time⟩]⟩

/-- Row order used by `ORDER BY time ASC` (stable sort on the time text). -/
def timeLe (a b : Record) : Prop := strLe a.time b.time

instance : DecidableRel timeLe :=
  fun a b => inferInstanceAs (Decidable (memLe a.time.data b.time.data = true))

/-- Embeds `DataBase.get_records_for_date` (src/main.py:135-137):
`SELECT time, service FROM Records WHERE date = ? ORDER BY time ASC`. -/
def get_records_for_date (db : DB) (date : String) : List (String × String) :=
  ((db.records.filter fun r => r.date == date).insertionSort timeLe).map fun r =>
    (r.time, r.service)

/-- Embeds `DataBase.delete_record` (src/main.py:143-145): `DELETE FROM Records WHERE
id = ?` — removes matching rows, a silent no-op when none match. -/
def delete_record (db : DB) (record_id : ℕ) : DB :=
  ⟨db.nextId, db.records.filter fun r => r.id != record_id⟩

/-- SQLite `substr(s, start, len)` (1-based start). -/
def substrSQL (s : String) (start len : ℕ) : String :=
  String.mk ((s.data.drop (start - 1)).take len)

/-- Embeds `SELECT DISTINCT … ORDER BY …` followed by the Python comprehension's
`if r[0]` filter (drops empty strings): sorted distinct values. -/
def sortedDistinct (l : List String) : List String :=
  (l.dedup.insertionSort strLe).filter fun s => s != ""

/-- Embeds `DataBase.get_years` (src/main.py:147-149): distinct `substr(date, 7, 4)`. -/
def get_years (db : DB) : List String :=
  sortedDistinct (db.records.map fun r => substrSQL r.date 7 4)

/-- Embeds `DataBase.get_months_for_year` (src/main.py:151-153). -/
def get_months_for_year (db : DB) (year : String) : List String :=
  sortedDistinct
    ((db.records.filter fun r => substrSQL r.date 7 4 == year).map fun r =>
      substrSQL r.date 4 2)

/-- Embeds `DataBase.get_days_for_year_month` (src/main.py:155-157). -/
def get_days_for_year_month (db : DB) (year month : String) : List String :=
  sortedDistinct
    ((db.records.filter fun r =>
        substrSQL r.date 7 4 == year && substrSQL r.date 4 2 == month).map fun r =>
      substrSQL r.date 1 2)

/-! ### Conversation machine: the time step (`Bot.confirm_record`) -/

/-- Embeds `Bot.admins` (src/main.py:165). -/
def admins : List ℤ := [5955591242]

/-- The session fields present when `confirm_record` runs (`user_state` entry
built up by `get_name`, `get_phone`, `get_date`, `get_time`). -/
structure Session where
  service : String
  name : String
  phone : String
  date : Date
deriving DecidableEq, Repr

/-- Messages `confirm_record` can send, abstracted to their kind. -/
inductive Msg
  | invalidTime
  | sessionReset
  | confirmed (service name phone : String) (date : Date) (time : String)
  | saveError
deriving DecidableEq, Repr

/-- Observable outcome of one `confirm_record` call: resulting ledger, messages
to the subject, admin ids notified of the new reservation, the session entry
after the call, and whether the same step was re-registered. -/
structure ConfirmOut where
  db : DB
  userMsgs : List Msg
  adminMsgs : List ℤ
  sessionAfter : Option Session
  reregistered : Bool
deriving DecidableEq, Repr

/-- Embeds `Bot.confirm_record` (src/main.py:420-473).  Control flow of the source:
1. `t = (message.text or "").strip()`; if `re.fullmatch(r"\d{2}:\d{2}", t)`
   fails: error message, re-register the same step, session untouched.
2. `data = self.user_state.get(chat_id, {})`; if empty: reset message, stop.
3. `try`: INSERT (`insertFails` models the insert raising), confirmation to the
   subject, then one notification per configured admin (each individually
   guarded); `except`: transient save-error message to the subject only;
   `finally`: `del self.user_state[chat_id]` in both cases. -/
def confirm_record (db : DB) (chat_id : ℤ) (sess : Option Session)
    (insertFails : Bool) (text : String) : ConfirmOut :=
  let t := pyStrip text.data
  if isHHMM t = false then
    ⟨db, [Msg.invalidTime], [], sess, true⟩
  else
    match sess with
    | none => ⟨db, [Msg.sessionReset], [], none, false⟩
    | some data =>
      if insertFails then
        ⟨db, [Msg.saveError], [], none, false⟩
      else
        ⟨add_record db chat_id data.name data.phone data.service (fmtDate data.date)
            (String.mk t),
          [Msg.confirmed data.service data.name data.phone data.date (String.mk t)],
          admins, none, false⟩

/-- The `cb_delete` callback (src/main.py:334-348), authorized path: deletes by
id and reports; the absence of the id is not checked anywhere. -/
def cb_delete (db : DB) (chat_id : ℤ) (record_id : ℕ) : DB × String :=
  if chat_id ∈ admins then (delete_record db record_id, "Удалено")
  else (db, "Нет прав")

/-! ### Definitions written from the specification's words (for comparison
against the source-derived definitions above) -/

/-- Modelled from the spec's words: the *strict* `dd.mm.yyyy` shape — exactly
two day digits, a dot, two month digits, a dot, four year digits. -/
def strictDateShape (s : String) : Bool :=
  match s.data with
  | [d1, d2, c1, m1, m2, c2, y1, y2, y3, y4] =>
    isDigitCh d1 && isDigitCh d2 && c1 == '.' && isDigitCh m1 && isDigitCh m2 &&
      c2 == '.' && isDigitCh y1 && isDigitCh y2 && isDigitCh y3 && isDigitCh y4
  | _ => false

/-- A real calendar date (as validated by the `datetime` constructor). -/
def realDate (d : Date) : Prop :=
  1 ≤ d.year ∧ 1 ≤ d.month ∧ d.month ≤ 12 ∧ 1 ≤ d.day ∧ d.day ≤ daysInMonth d.year d.month

instance (d : Date) : Decidable (realDate d) := by unfold realDate; infer_instance

/-- Half-open interval disjointness (back-to-back allowed). -/
def IntervalsDisjoint (a b : ℤ × ℤ) : Prop := a.2 ≤ b.1 ∨ b.2 ≤ a.1

/-- An example session as left by the date step. -/
def sessEx : Session := ⟨"Маникюр + гель-лак", "Анна", "+380991234567", ⟨2030, 6, 5⟩⟩

/-- Ledger with reservations on `05.06.2025` and `12.06.2025` only. -/
def dbEx : DB :=
  add_record
    (add_record emptyDB 10 "Анна" "380991234567" "Маникюр + гель-лак" "05.06.2025" "12:00")
    11 "Ольга" "380991234568" "Френч (как доп. к услуге)" "12.06.2025" "13:00"

/-! ## Helper lemmas -/

theorem lt_slotCount {k : ℕ} {need : ℤ} (h : k < slotCount need) :
    720 + 30 * (k : ℤ) + need ≤ 1140 := by
  unfold slotCount at h
  split at h
  · next hle => omega
  · omega

theorem mem_slots {rows : List (ℤ × String)} {need t : ℤ}
    (h : t ∈ get_available_slots rows need) :
    ∃ k : ℕ, k < slotCount need ∧ t = 720 + 30 * (k : ℤ) ∧
      ∀ se ∈ busyOf rows, t + need ≤ se.1 ∨ se.2 ≤ t := by
  unfold get_available_slots at h
  rcases List.mem_filterMap.mp h with ⟨k, hk, hf⟩
  rw [List.mem_range] at hk
  refine ⟨k, hk, ?_⟩
  split at hf
  · next hall =>
    obtain rfl : (720 + 30 * (k : ℤ)) = t := Option.some.inj hf
    refine ⟨rfl, fun se hse => ?_⟩
    have h1 := List.all_eq_true.mp hall se hse
    rcases Bool.or_eq_true_iff.mp h1 with h' | h'
    · exact Or.inl (of_decide_eq_true h')
    · exact Or.inr (of_decide_eq_true h')
  · exact absurd hf (by simp)

theorem slots_pairwise_lt (rows : List (ℤ × String)) (need : ℤ) :
    List.Pairwise (· < ·) (get_available_slots rows need) := by
  unfold get_available_slots
  refine (List.pairwise_lt_range (slotCount need)).filterMap _ ?_
  intro i j hij x hx y hy
  simp only [Option.mem_def] at hx hy
  split at hx
  · obtain rfl := Option.some.inj hx
    split at hy
    · obtain rfl := Option.some.inj hy
      omega
    · exact absurd hy (by simp)
  · exact absurd hx (by simp)

/-! ## Claims -/

/-- Claim C3: Every time returned by the slot allocator lies inside the work
window (`t ≥ 12:00` and `t + duration ≤ 19:00`), sits on an exact 30-minute
increment from the window open, the list is in ascending order, and an empty
list is a possible (non-error) outcome. -/
theorem c3_theorem :
    (∀ (rows : List (ℤ × String)) (need t : ℤ), t ∈ get_available_slots rows need →
        workOpen ≤ t ∧ t + need ≤ workClose ∧ ∃ k : ℕ, t = workOpen + 30 * (k : ℤ)) ∧
      (∀ (rows : List (ℤ × String)) (need : ℤ),
        List.Pairwise (· < ·) (get_available_slots rows need)) ∧
      get_available_slots [] 480 = [] := by
  refine ⟨?_, slots_pairwise_lt, by decide⟩
  intro rows need t ht
  obtain ⟨k, hk, rfl, _⟩ := mem_slots ht
  have := lt_slotCount hk
  refine ⟨by unfold workOpen; omega, by unfold workClose; omega, ⟨k, rfl⟩⟩

theorem c3_witness :
    workOpen ≤ (720 : ℤ) ∧ (720 : ℤ) + 120 ≤ workClose ∧
      ∃ k : ℕ, (720 : ℤ) = workOpen + 30 * (k : ℤ) :=
  c3_theorem.1 [] 120 720 (by decide)

/-- Claim C2: Every start time returned by the slot allocator, extended by the
requested duration, is disjoint (half-open, back-to-back allowed) from every
existing busy interval `[s, s + duration(service))` — durations drawn from the
catalog with the 1.5 h default — so booking a returned slot preserves the
pairwise non-overlap invariant. -/
theorem c2_theorem :
    ∀ (rows : List (ℤ × String)) (need c : ℤ), c ∈ get_available_slots rows need →
      (∀ b ∈ busyOf rows, c + need ≤ b.1 ∨ b.2 ≤ c) ∧
        (List.Pairwise IntervalsDisjoint (busyOf rows) →
          List.Pairwise IntervalsDisjoint (busyOf rows ++ [(c, c + need)])) := by
  intro rows need c hc
  obtain ⟨k, hk, hck, hdisj⟩ := mem_slots hc
  refine ⟨fun b hb => by rcases hdisj b hb with h | h <;> [exact Or.inl h; exact Or.inr h], ?_⟩
  intro hp
  refine List.pairwise_append.2 ⟨hp, List.pairwise_singleton _ _, ?_⟩
  intro a ha b hb
  obtain rfl : b = (c, c + need) := by simpa using hb
  rcases hdisj a ha with h | h
  · exact Or.inr h
  · exact Or.inl h

theorem c2_witness :
    List.Pairwise IntervalsDisjoint (busyOf [((720 : ℤ), "x")] ++ [((810 : ℤ), 810 + 120)]) :=
  (c2_theorem [((720 : ℤ), "x")] 120 810 (by decide)).2 (List.pairwise_singleton _ _)

/-- Claim C1 counterexample: At the time step with an empty ledger and the
session's service of duration 1.5 h, the input `"11:30"` is syntax-valid but
absent from the computed slot list (`12:00`–`17:30`), yet `confirm_record`
commits it: the ledger grows, the subject gets a confirmation, and the admins
are notified — the claimed membership check does not exist in the code. -/
theorem c1_counterexample :
    isHHMM (pyStrip "11:30".data) = true ∧
      "11:30" ∉ slotStrings [] 90 ∧
      (confirm_record emptyDB 7 (some sessEx) false "11:30").db.records.length =
        emptyDB.records.length + 1 ∧
      (confirm_record emptyDB 7 (some sessEx) false "11:30").adminMsgs = admins := by
  refine ⟨by decide, by decide, by decide, by decide⟩

/-- Claim C1 amended: At the time step a reservation is committed exactly when
the stripped input matches the `\d{2}:\d{2}` syntax, a session entry exists and
the ledger insert succeeds — membership of the input in the most recently
computed slot list is *not* required; only a syntax-invalid input re-prompts at
the same step (leaving ledger and session untouched). -/
theorem c1_theorem :
    ∀ (db : DB) (chat_id : ℤ) (sess : Option Session) (fails : Bool) (text : String),
      ((confirm_record db chat_id sess fails text).db.records.length =
          db.records.length + 1 ↔
        isHHMM (pyStrip text.data) = true ∧ sess ≠ none ∧ fails = false) ∧
      (isHHMM (pyStrip text.data) = false →
        (confirm_record db chat_id sess fails text).reregistered = true ∧
          (confirm_record db chat_id sess fails text).db = db ∧
          (confirm_record db chat_id sess fails text).sessionAfter = sess) := by
  intro db chat_id sess fails text
  by_cases hsyn : isHHMM (pyStrip text.data) = true
  · rcases sess with _ | data
    · constructor
      · simp [confirm_record, hsyn]
      · intro h; rw [h] at hsyn; exact absurd hsyn (by simp)
    · cases fails
      · constructor
        · simp [confirm_record, hsyn, add_record]
        · intro h; rw [h] at hsyn; exact absurd hsyn (by simp)
      · constructor
        · simp [confirm_record, hsyn]
        · intro h; rw [h] at hsyn; exact absurd hsyn (by simp)
  · have hsyn' : isHHMM (pyStrip text.data) = false := by
      revert hsyn; cases isHHMM (pyStrip text.data) <;> simp
    constructor
    · simp [confirm_record, hsyn']
    · intro _
      refine ⟨?_, ?_, ?_⟩ <;> simp [confirm_record, hsyn']

theorem c1_witness :
    (confirm_record emptyDB 7 (some sessEx) false "12:00").db.records.length =
      emptyDB.records.length + 1 :=
  (c1_theorem emptyDB 7 (some sessEx) false "12:00").1.mpr
    ⟨by decide, by simp, rfl⟩

/-- Claim C4: When the time step's commit runs (syntax-valid input, session
present): if the ledger insert raises, the subject receives only the transient
save-error message, no confirmation and no admin notifications go out, and the
ledger is unchanged; the session entry is removed in every case — insert
success and insert failure alike (the `finally` block). -/
theorem c4_theorem :
    ∀ (db : DB) (chat_id : ℤ) (data : Session) (fails : Bool) (text : String),
      isHHMM (pyStrip text.data) = true →
        (confirm_record db chat_id (some data) fails text).sessionAfter = none ∧
          (fails = true →
            (confirm_record db chat_id (some data) fails text).userMsgs = [Msg.saveError] ∧
              (confirm_record db chat_id (some data) fails text).adminMsgs = [] ∧
              (confirm_record db chat_id (some data) fails text).db = db) := by
  intro db chat_id data fails text hsyn
  cases fails
  · exact ⟨by simp [confirm_record, hsyn], fun h => absurd h (by simp)⟩
  · refine ⟨?_, fun _ => ⟨?_, ?_, ?_⟩⟩ <;> simp [confirm_record, hsyn]

/-! ### Phone validator (C6, C10) -/

theorem phoneRegexOk_iff (l : List Char) :
    phoneRegexOk l = true ↔
      ∃ rest, (l = '+' :: '3' :: '8' :: rest ∨ l = '3' :: '8' :: rest) ∧
        rest.length = 10 ∧ rest.all isDigitCh = true := by
  rcases l with _ | ⟨a, _ | ⟨b, _ | ⟨c, rest⟩⟩⟩
  · simp [phoneRegexOk]
  · simp [phoneRegexOk]
  · constructor
    · intro h; simp [phoneRegexOk] at h
    · rintro ⟨rest, hshape | hshape, hlen, -⟩ <;> simp_all
  · constructor
    · intro h
      simp only [phoneRegexOk] at h
      by_cases h1 : a = '+' ∧ b = '3' ∧ c = '8'
      · rw [if_pos h1] at h
        refine ⟨rest, Or.inl ?_, ?_⟩
        · rw [h1.1, h1.2.1, h1.2.2]
        · simpa [digits10, Bool.and_eq_true, beq_iff_eq] using h
      · rw [if_neg h1] at h
        by_cases h2 : a = '3' ∧ b = '8'
        · rw [if_pos h2] at h
          refine ⟨c :: rest, Or.inr ?_, ?_⟩
          · rw [h2.1, h2.2]
          · simpa [digits10, Bool.and_eq_true, beq_iff_eq] using h
        · rw [if_neg h2] at h
          exact absurd h (by simp)
    · rintro ⟨rest', hsh | hsh, hlen, hdig⟩
      · obtain ⟨ha, hb, hc, hr⟩ : a = '+' ∧ b = '3' ∧ c = '8' ∧ rest = rest' := by
          simpa [List.cons.injEq] using hsh
        subst ha; subst hb; subst hc; subst hr
        simp only [phoneRegexOk]
        rw [if_pos ⟨trivial, trivial, trivial⟩]
        simp [digits10, Bool.and_eq_true, beq_iff_eq, hlen, hdig]
      · obtain ⟨ha, hb, hr⟩ : a = '3' ∧ b = '8' ∧ c :: rest = rest' := by
          simpa [List.cons.injEq] using hsh
        subst ha; subst hb; subst hr
        simp only [phoneRegexOk]
        rw [if_neg (by rintro ⟨hbad, -⟩; exact absurd hbad (by decide)), if_pos ⟨trivial, trivial⟩]
        simp only [digits10, Bool.and_eq_true, beq_iff_eq]
        exact ⟨hlen, hdig⟩

/-- Claim C6: The phone validator strips every character except digits and `'+'`
and accepts exactly the results consisting of the national prefix (`+38` or
`38`) followed by exactly ten digits; `"+38 099 123-45-67"` is accepted and
normalizes to `"+380991234567"`; `"12345"` is rejected. -/
theorem c6_theorem :
    _is_valid_phone "+38 099 123-45-67" = true ∧
      normalizePhone "+38 099 123-45-67" = "+380991234567" ∧
      _is_valid_phone "12345" = false ∧
      ∀ text : String,
        _is_valid_phone text = true ↔
          ∃ rest,
            (stripPhone text.data = '+' :: '3' :: '8' :: rest ∨
              stripPhone text.data = '3' :: '8' :: rest) ∧
            rest.length = 10 ∧ rest.all isDigitCh = true := by
  refine ⟨by decide, by decide, by decide, fun text => ?_⟩
  exact phoneRegexOk_iff (stripPhone text.data)

theorem c6_witness :
    ∃ rest,
      (stripPhone "+38 099 123-45-67".data = '+' :: '3' :: '8' :: rest ∨
        stripPhone "+38 099 123-45-67".data = '3' :: '8' :: rest) ∧
      rest.length = 10 ∧ rest.all isDigitCh = true :=
  (c6_theorem.2.2.2 "+38 099 123-45-67").mp (by decide)

/-- Claim C10: An input with no leading `'+'` such as `"380991234567"` passes the
phone validator, and the normalized phone stored by the date step has no
leading `'+'`, while `"+380991234567"` is also accepted and stored with one —
so stored phones are not uniformly `'+'`-prefixed. -/
theorem c10_theorem :
    _is_valid_phone "380991234567" = true ∧
      get_date_phone "380991234567" = some "380991234567" ∧
      (normalizePhone "380991234567").data.head? = some '3' ∧
      _is_valid_phone "+380991234567" = true ∧
      (normalizePhone "+380991234567").data.head? = some '+' := by
  exact ⟨by decide, by decide, by decide, by decide, by decide⟩

/-! ### Date-parser helper lemmas (C5) -/

theorem digitCh_toNat {n : ℕ} (h : n < 10) : (digitCh n).toNat = 48 + n := by
  interval_cases n <;> decide

theorem isDigitCh_digitCh {n : ℕ} (h : n < 10) : isDigitCh (digitCh n) = true := by
  simp only [isDigitCh, digitCh_toNat h, Bool.and_eq_true, decide_eq_true_iff]
  omega

theorem digitVal_digitCh {n : ℕ} (h : n < 10) : digitVal (digitCh n) = n := by
  simp only [digitVal, digitCh_toNat h]
  omega

theorem digitCh_ne_dot {n : ℕ} (h : n < 10) : digitCh n ≠ '.' := by
  intro hc
  have h1 := congrArg Char.toNat hc
  rw [digitCh_toNat h] at h1
  have h2 : ('.' : Char).toNat = 46 := by decide
  omega

theorem isSpaceCh_digitCh {n : ℕ} (h : n < 10) : isSpaceCh (digitCh n) = false := by
  simp only [isSpaceCh, digitCh_toNat h, Bool.or_eq_false_iff, decide_eq_false_iff_not]
  omega

theorem dropWhile_space_eq_self {l : List Char} (h : ∀ c ∈ l, isSpaceCh c = false) :
    l.dropWhile isSpaceCh = l := by
  cases l with
  | nil => rfl
  | cons c cs => simp [List.dropWhile_cons, h c (by simp)]

theorem pyStrip_eq_self {l : List Char} (h : ∀ c ∈ l, isSpaceCh c = false) :
    pyStrip l = l := by
  unfold pyStrip
  rw [dropWhile_space_eq_self h,
    dropWhile_space_eq_self (fun c hc => h c (List.mem_reverse.mp hc)),
    List.reverse_reverse]

theorem splitDots_no_dot {l : List Char} (h : ∀ c ∈ l, c ≠ '.') : splitDots l = [l] := by
  induction l with
  | nil => rfl
  | cons c cs ih =>
    have hc : ¬c = '.' := h c (by simp)
    simp only [splitDots, if_neg hc, ih (fun e he => h e (by simp [he]))]

theorem splitDots_append {xs ys : List Char} (h : ∀ c ∈ xs, c ≠ '.') :
    splitDots (xs ++ '.' :: ys) = xs :: splitDots ys := by
  induction xs with
  | nil => simp [splitDots]
  | cons c cs ih =>
    have hc : ¬c = '.' := h c (by simp)
    have ih' := ih fun e he => h e (by simp [he])
    simp only [List.cons_append, splitDots, if_neg hc, List.append_eq, ih']

theorem pad2_mem {n : ℕ} {c : Char} (h : c ∈ pad2 n) :
    c = digitCh (n / 10) ∨ c = digitCh (n % 10) := by
  simpa [pad2] using h

theorem pad4_mem {n : ℕ} {c : Char} (h : c ∈ pad4 n) :
    c = digitCh (n / 1000) ∨ c = digitCh (n / 100 % 10) ∨ c = digitCh (n / 10 % 10) ∨
      c = digitCh (n % 10) := by
  simpa [pad4] using h

theorem pad2_no_dot {n : ℕ} (h : n ≤ 99) : ∀ c ∈ pad2 n, c ≠ '.' := by
  intro c hc
  rcases pad2_mem hc with rfl | rfl
  · exact digitCh_ne_dot (by omega)
  · exact digitCh_ne_dot (by omega)

theorem pad2_no_space {n : ℕ} (h : n ≤ 99) : ∀ c ∈ pad2 n, isSpaceCh c = false := by
  intro c hc
  rcases pad2_mem hc with rfl | rfl
  · exact isSpaceCh_digitCh (by omega)
  · exact isSpaceCh_digitCh (by omega)

theorem pad4_no_space {n : ℕ} (h : n ≤ 9999) : ∀ c ∈ pad4 n, isSpaceCh c = false := by
  intro c hc
  rcases pad4_mem hc with rfl | rfl | rfl | rfl
  · exact isSpaceCh_digitCh (by omega)
  · exact isSpaceCh_digitCh (by omega)
  · exact isSpaceCh_digitCh (by omega)
  · exact isSpaceCh_digitCh (by omega)

theorem daysInMonth_le (y m : ℕ) : daysInMonth y m ≤ 31 := by
  unfold daysInMonth
  split
  · split <;> omega
  · split <;> omega

theorem matchDay_pad2 {d : ℕ} (h1 : 1 ≤ d) (h2 : d ≤ 31) : matchDay (pad2 d) = some d := by
  have hq : d / 10 < 10 := by omega
  have hr : d % 10 < 10 := by omega
  have t1 := digitCh_toNat hq
  have t2 := digitCh_toNat hr
  have e1 := digitVal_digitCh hq
  have e2 := digitVal_digitCh hr
  simp only [pad2, matchDay, t1, t2, e1, e2, isDigitCh_digitCh hq, isDigitCh_digitCh hr]
  rw [if_neg (by omega), if_pos ⟨trivial, trivial, by omega, by omega⟩]
  exact congrArg some (by omega)

theorem matchMonth_pad2 {m : ℕ} (h1 : 1 ≤ m) (h2 : m ≤ 12) :
    matchMonth (pad2 m) = some m := by
  have hq : m / 10 < 10 := by omega
  have hr : m % 10 < 10 := by omega
  simp only [pad2, matchMonth, digitVal_digitCh hq, digitVal_digitCh hr,
    isDigitCh_digitCh hq, isDigitCh_digitCh hr]
  rw [if_pos ⟨trivial, trivial, by omega, by omega⟩]
  exact congrArg some (by omega)

theorem matchYear_pad4 {y : ℕ} (h : y ≤ 9999) : matchYear (pad4 y) = some y := by
  have q1 : y / 1000 < 10 := by omega
  have q2 : y / 100 % 10 < 10 := by omega
  have q3 : y / 10 % 10 < 10 := by omega
  have q4 : y % 10 < 10 := by omega
  simp only [pad4, matchYear, digitVal_digitCh q1, digitVal_digitCh q2, digitVal_digitCh q3,
    digitVal_digitCh q4, isDigitCh_digitCh q1, isDigitCh_digitCh q2, isDigitCh_digitCh q3,
    isDigitCh_digitCh q4]
  rw [if_pos ⟨trivial, trivial, trivial, trivial⟩]
  exact congrArg some (by omega)

theorem matchDay_bounds {l : List Char} {n : ℕ} (h : matchDay l = some n) :
    1 ≤ n ∧ n ≤ 31 := by
  rcases l with _ | ⟨a, _ | ⟨b, _ | ⟨c, rest⟩⟩⟩
  · simp [matchDay] at h
  · simp only [matchDay] at h
    split at h
    · next hc => obtain rfl := Option.some.inj h; unfold digitVal; omega
    · simp at h
  · simp only [matchDay] at h
    split at h
    · next hc => obtain rfl := Option.some.inj h; unfold digitVal; omega
    · split at h
      · next hc => obtain rfl := Option.some.inj h; omega
      · simp at h
  · simp [matchDay] at h

theorem matchMonth_bounds {l : List Char} {n : ℕ} (h : matchMonth l = some n) :
    1 ≤ n ∧ n ≤ 12 := by
  rcases l with _ | ⟨a, _ | ⟨b, _ | ⟨c, rest⟩⟩⟩
  · simp [matchMonth] at h
  · simp only [matchMonth] at h
    split at h
    · next hc => obtain rfl := Option.some.inj h; unfold digitVal; omega
    · simp at h
  · simp only [matchMonth] at h
    split at h
    · next hc => obtain rfl := Option.some.inj h; omega
    · simp at h
  · simp [matchMonth] at h

theorem matchYear_bounds {l : List Char} {n : ℕ} (h : matchYear l = some n) : n ≤ 9999 := by
  rcases l with _ | ⟨a, _ | ⟨b, _ | ⟨c, _ | ⟨d, _ | ⟨e, rest⟩⟩⟩⟩⟩
  · simp [matchYear] at h
  · simp [matchYear] at h
  · simp [matchYear] at h
  · simp [matchYear] at h
  · simp only [matchYear] at h
    split at h
    · next hc =>
      obtain rfl := Option.some.inj h
      have ha : isDigitCh a = true := hc.1
      have hb : isDigitCh b = true := hc.2.1
      have hc3 : isDigitCh c = true := hc.2.2.1
      have hd : isDigitCh d = true := hc.2.2.2
      simp only [isDigitCh, Bool.and_eq_true, decide_eq_true_iff] at ha hb hc3 hd
      unfold digitVal
      omega
    · simp at h
  · simp [matchYear] at h

theorem strptimeDate_sound {text : String} {d : Date} (h : strptimeDate text = some d) :
    realDate d ∧ d.year ≤ 9999 := by
  unfold strptimeDate at h
  split at h
  · split at h
    · next hd hm hy =>
      split at h
      · next hcal =>
        obtain rfl := Option.some.inj h
        have hdb := matchDay_bounds hd
        have hmb := matchMonth_bounds hm
        have hyb := matchYear_bounds hy
        exact ⟨⟨hcal.1, hmb.1, hmb.2, hdb.1, hcal.2⟩, hyb⟩
      · exact absurd h (by simp)
    · exact absurd h (by simp)
  · exact absurd h (by simp)

theorem parse_date_sound {today : Date} {text : String} {d : Date}
    (h : _parse_date today text = some d) :
    realDate d ∧ d.year ≤ 9999 ∧ dateLt d today = false := by
  unfold _parse_date at h
  split at h
  · exact absurd h (by simp)
  · next d' hd' =>
    split at h
    · exact absurd h (by simp)
    · next hlt =>
      obtain rfl := Option.some.inj h
      have hs := strptimeDate_sound hd'
      refine ⟨hs.1, hs.2, ?_⟩
      revert hlt
      cases dateLt d' today <;> simp

theorem parse_date_fmt {today d : Date} (h : realDate d) (h4 : d.year ≤ 9999)
    (hlt : dateLt d today = false) : _parse_date today (fmtDate d) = some d := by
  obtain ⟨hy1, hm1, hm12, hd1, hdm⟩ := h
  have hd31 : d.day ≤ 31 := le_trans hdm (daysInMonth_le d.year d.month)
  have hmem : ∀ c ∈ pad2 d.day ++ '.' :: (pad2 d.month ++ '.' :: pad4 d.year),
      isSpaceCh c = false := by
    intro c hc
    simp only [List.mem_append, List.mem_cons] at hc
    rcases hc with h1 | rfl | h1 | rfl | h1
    · exact pad2_no_space (by omega) c h1
    · decide
    · exact pad2_no_space (by omega) c h1
    · decide
    · exact pad4_no_space (by omega) c h1
  have hs : strptimeDate (fmtDate d) = some ⟨d.year, d.month, d.day⟩ := by
    unfold strptimeDate
    have hdata : (fmtDate d).data = pad2 d.day ++ '.' :: (pad2 d.month ++ '.' :: pad4 d.year) :=
      rfl
    rw [hdata, pyStrip_eq_self hmem, splitDots_append (pad2_no_dot (by omega)),
      splitDots_append (pad2_no_dot (by omega)), splitDots_no_dot (fun c hc => by
        rcases pad4_mem hc with rfl | rfl | rfl | rfl <;> exact digitCh_ne_dot (by omega))]
    show (match matchDay (pad2 d.day), matchMonth (pad2 d.month), matchYear (pad4 d.year) with
        | some dd, some mm, some yy =>
          if 1 ≤ yy ∧ dd ≤ daysInMonth yy mm then some (⟨yy, mm, dd⟩ : Date) else none
        | _, _, _ => none) = some (⟨d.year, d.month, d.day⟩ : Date)
    rw [matchDay_pad2 hd1 hd31, matchMonth_pad2 hm1 hm12, matchYear_pad4 h4]
    show (if 1 ≤ d.year ∧ d.day ≤ daysInMonth d.year d.month
        then some (⟨d.year, d.month, d.day⟩ : Date) else none) =
      some (⟨d.year, d.month, d.day⟩ : Date)
    rw [if_pos ⟨hy1, hdm⟩]
  unfold _parse_date
  rw [hs]
  show (if dateLt ⟨d.year, d.month, d.day⟩ today = true then none
      else some (⟨d.year, d.month, d.day⟩ : Date)) = some d
  have heta : (⟨d.year, d.month, d.day⟩ : Date) = d := rfl
  rw [heta, hlt]
  simp

/-- Claim C5 counterexample: `"5.6.2030"` is not in strict `dd.mm.yyyy` shape,
yet the parser accepts it (CPython's `%d`/`%m` admit unpadded single digits). -/
theorem c5_counterexample :
    strictDateShape "5.6.2030" = false ∧
      _parse_date ⟨2025, 1, 1⟩ "5.6.2030" = some ⟨2030, 6, 5⟩ := by
  exact ⟨by decide, by decide⟩

/-- Claim C5 amended: The date parser never raises; every accepted text denotes
a real calendar date that is not strictly before the current date; every real
calendar date not before the current date is accepted in its strict
`dd.mm.yyyy` rendering and returned as parsed; `"31.02.2030"` is rejected for
any current date.  Acceptance is however not limited to the strict shape:
day/month may also appear unpadded (e.g. `"5.6.2030"`). -/
theorem c5_theorem :
    (∀ (today : Date) (text : String) (d : Date),
        _parse_date today text = some d → realDate d ∧ dateLt d today = false) ∧
      (∀ today d : Date, realDate d → d.year ≤ 9999 → dateLt d today = false →
        _parse_date today (fmtDate d) = some d) ∧
      (∀ today : Date, _parse_date today "31.02.2030" = none) ∧
      _parse_date ⟨2025, 1, 1⟩ "5.6.2030" = some ⟨2030, 6, 5⟩ := by
  refine ⟨?_, fun today d h h4 hlt => parse_date_fmt h h4 hlt, ?_, by decide⟩
  · intro today text d h
    have hs := parse_date_sound h
    exact ⟨hs.1, hs.2.2⟩
  · intro today
    unfold _parse_date
    rw [show strptimeDate "31.02.2030" = none from by decide]

theorem c5_witness :
    _parse_date ⟨2025, 1, 1⟩ (fmtDate ⟨2030, 6, 5⟩) = some ⟨2030, 6, 5⟩ :=
  c5_theorem.2.1 ⟨2025, 1, 1⟩ ⟨2030, 6, 5⟩ (by decide) (by decide) (by decide)

/-! ### Ledger round-trip (C7) -/

theorem get_records_perm (db : DB) (d : String) :
    List.Perm (get_records_for_date db d)
      ((db.records.filter fun r => r.date == d).map fun r => (r.time, r.service)) := by
  unfold get_records_for_date
  exact (List.perm_insertionSort timeLe _).map _

/-- Claim C7: Inserting a reservation for a date and re-querying that date yields
the inserted `(time, service)` pair exactly once more than before; every other
pair's multiplicity is unchanged, and every previously returned pair is still
returned. -/
theorem c7_theorem :
    ∀ (db : DB) (tg : ℤ) (nm ph sv d t : String),
      ((get_records_for_date (add_record db tg nm ph sv d t) d).count (t, sv) =
          (get_records_for_date db d).count (t, sv) + 1) ∧
        (∀ p : String × String, p ≠ (t, sv) →
          (get_records_for_date (add_record db tg nm ph sv d t) d).count p =
            (get_records_for_date db d).count p) ∧
        (∀ p, p ∈ get_records_for_date db d →
          p ∈ get_records_for_date (add_record db tg nm ph sv d t) d) := by
  intro db tg nm ph sv d t
  have h1 := get_records_perm db d
  have h2 := get_records_perm (add_record db tg nm ph sv d t) d
  have hfil : ((add_record db tg nm ph sv d t).records.filter fun r => r.date == d) =
      (db.records.filter fun r => r.date == d) ++ [⟨db.nextId, tg, nm, ph, sv, d, t⟩] := by
    simp [add_record, List.filter_append]
  have key : ∀ p : String × String,
      (get_records_for_date (add_record db tg nm ph sv d t) d).count p =
        (get_records_for_date db d).count p + (if (t, sv) == p then 1 else 0) := by
    intro p
    rw [List.count_eq_countP, List.count_eq_countP, h2.countP_eq, h1.countP_eq, hfil,
      List.map_append, List.countP_append]
    simp [List.countP_cons]
  refine ⟨?_, ?_, ?_⟩
  · simpa using key (t, sv)
  · intro p hp
    have hne : ((t, sv) == p) = false := by
      simpa [beq_eq_false_iff_ne] using (Ne.symm hp)
    simpa [hne] using key p
  · intro p hp
    refine h2.mem_iff.mpr ?_
    rw [hfil, List.map_append]
    exact List.mem_append_left _ (h1.mem_iff.mp hp)

theorem c7_witness :
    ("12:00", "Маникюр + гель-лак") ∈
      get_records_for_date
        (add_record dbEx 12 "Ума" "380991234569" "Френч (как доп. к услуге)" "05.06.2025"
          "14:00") "05.06.2025" :=
  (c7_theorem dbEx 12 "Ума" "380991234569" "Френч (как доп. к услуге)" "05.06.2025"
    "14:00").2.2 ("12:00", "Маникюр + гель-лак") (by decide)

/-! ### Deletion of an absent id (C8) -/

/-- Claim C8: Deleting an id that is absent from the Ledger never raises (the
embedding is total), leaves the stored records unchanged, and repeating the
same deletion gives the same observable outcome — consistently a no-op success
(`cb_delete` reports the same success message both times). -/
theorem c8_theorem :
    ∀ (db : DB) (rid : ℕ), rid ∉ db.records.map (fun r => r.id) →
      delete_record db rid = db ∧
        delete_record (delete_record db rid) rid = delete_record db rid ∧
        cb_delete db 5955591242 rid = (db, "Удалено") ∧
        cb_delete (cb_delete db 5955591242 rid).1 5955591242 rid = (db, "Удалено") := by
  intro db rid hab
  have hfl : (db.records.filter fun r => r.id != rid) = db.records := by
    apply List.filter_eq_self.mpr
    intro r hr
    have hne : r.id ≠ rid := fun he => hab (he ▸ List.mem_map_of_mem _ hr)
    simpa [bne_iff_ne] using hne
  have hdel : delete_record db rid = db := by
    unfold delete_record
    rw [hfl]
  have hcb : cb_delete db 5955591242 rid = (db, "Удалено") := by
    unfold cb_delete
    rw [if_pos (by decide), hdel]
  refine ⟨hdel, by rw [hdel, hdel], hcb, ?_⟩
  rw [hcb]
  exact hcb

theorem c8_witness :
    delete_record dbEx 99 = dbEx ∧ cb_delete dbEx 5955591242 99 = (dbEx, "Удалено") := by
  have h := c8_theorem dbEx 99 (by decide)
  exact ⟨h.1, h.2.2.1⟩

/-! ### Drill-down distinct queries (C9) -/

theorem memLe_total : ∀ a b : List Char, memLe a b = true ∨ memLe b a = true := by
  intro a
  induction a with
  | nil => intro b; left; rfl
  | cons c cs ih =>
    intro b
    cases b with
    | nil => right; rfl
    | cons d ds =>
      simp only [memLe]
      rcases Nat.lt_trichotomy c.toNat d.toNat with h | h | h
      · left; rw [if_pos h]
      · simp only [if_neg (show ¬c.toNat < d.toNat by omega),
          if_neg (show ¬d.toNat < c.toNat by omega)]
        exact ih ds
      · right; rw [if_pos h]

theorem memLe_trans :
    ∀ (a b c : List Char), memLe a b = true → memLe b c = true → memLe a c = true := by
  intro a
  induction a with
  | nil => intro b c _ _; rfl
  | cons x xs ih =>
    intro b c hab hbc
    cases b with
    | nil => simp [memLe] at hab
    | cons y ys =>
      cases c with
      | nil => simp [memLe] at hbc
      | cons z zs =>
        simp only [memLe] at hab hbc ⊢
        rcases Nat.lt_trichotomy x.toNat y.toNat with h1 | h1 | h1
        · rcases Nat.lt_trichotomy y.toNat z.toNat with h2 | h2 | h2
          · rw [if_pos (by omega)]
          · rw [if_pos (by omega)]
          · rw [if_neg (by omega), if_pos (by omega)] at hbc
            exact absurd hbc (by simp)
        · rcases Nat.lt_trichotomy y.toNat z.toNat with h2 | h2 | h2
          · rw [if_pos (by omega)]
          · rw [if_neg (by omega), if_neg (by omega)] at hab
            rw [if_neg (by omega), if_neg (by omega)] at hbc
            rw [if_neg (by omega), if_neg (by omega)]
            exact ih ys zs hab hbc
          · rw [if_neg (by omega), if_pos (by omega)] at hbc
            exact absurd hbc (by simp)
        · rw [if_neg (by omega), if_pos (by omega)] at hab
          exact absurd hab (by simp)

instance : IsTotal String strLe := ⟨fun a b => memLe_total a.data b.data⟩

instance : IsTrans String strLe :=
  ⟨fun a b c hab hbc => memLe_trans a.data b.data c.data hab hbc⟩

theorem sortedDistinct_pairwise (l : List String) :
    List.Pairwise (fun a b => strLe a b ∧ a ≠ b) (sortedDistinct l) := by
  unfold sortedDistinct
  apply List.Pairwise.filter
  have hsorted : List.Pairwise strLe (l.dedup.insertionSort strLe) :=
    List.sorted_insertionSort strLe l.dedup
  have hnodup : (l.dedup.insertionSort strLe).Nodup :=
    (List.perm_insertionSort strLe l.dedup).nodup_iff.mpr l.nodup_dedup
  exact hsorted.and hnodup

/-- Claim C9: The distinct year/month/day queries extract fixed character offsets
of the stored `dd.mm.yyyy` text and return strictly ascending lists; with
reservations only on `05.06.2025` and `12.06.2025`, the years are `["2025"]`,
the months of 2025 `["06"]`, and the days of 2025-06 `["05", "12"]`. -/
theorem c9_theorem :
    get_years dbEx = ["2025"] ∧
      get_months_for_year dbEx "2025" = ["06"] ∧
      get_days_for_year_month dbEx "2025" "06" = ["05", "12"] ∧
      (∀ db, List.Pairwise (fun a b => strLe a b ∧ a ≠ b) (get_years db)) ∧
      (∀ db y, List.Pairwise (fun a b => strLe a b ∧ a ≠ b) (get_months_for_year db y)) ∧
      (∀ db y m, List.Pairwise (fun a b => strLe a b ∧ a ≠ b)
        (get_days_for_year_month db y m)) := by
  refine ⟨by decide, by decide, by decide, fun db => sortedDistinct_pairwise _,
    fun db y => sortedDistinct_pairwise _, fun db y m => sortedDistinct_pairwise _⟩

theorem c4_witness :
    (confirm_record emptyDB 7 (some sessEx) true "12:00").sessionAfter = none ∧
      (confirm_record emptyDB 7 (some sessEx) true "12:00").userMsgs = [Msg.saveError] ∧
      (confirm_record emptyDB 7 (some sessEx) true "12:00").adminMsgs = [] ∧
      (confirm_record emptyDB 7 (some sessEx) true "12:00").db = emptyDB := by
  have h := c4_theorem emptyDB 7 sessEx true "12:00" (by decide)
  exact ⟨h.1, h.2 rfl⟩

end Booking
